import Mathlib

/-!
Verification development for the scheduler / synchronization / deadlock-detection
core of an rCore-style teaching kernel.

The Rust sources embedded here:
- src/os/src/sync/mod.rs        (resource-accounting table updates)
- src/os/src/syscall/sync.rs    (syscall layer, Banker-style detect_deadlock)
- src/os/src/task/manager.rs    (stride scheduler)

Machine integers: the tables hold u32 values; arithmetic that can wrap is
modelled on Nat with explicit reduction modulo 2^32 (release-mode wrapping
semantics).  Stride values are usize (64-bit), modelled modulo 2^64.
-/

/-- Modulus of the unsigned 32-bit table entries. -/
def U32MOD : Nat := 4294967296

/-- Modulus of usize (64-bit) stride arithmetic. -/
def U64MOD : Nat := 18446744073709551616

/-- Wrapping u32 addition (`a + b` on u32 in release mode). -/
def u32add (a b : Nat) : Nat := (a + b) % U32MOD

/-- Wrapping u32 subtraction (`a - b` on u32 in release mode). -/
def u32sub (a b : Nat) : Nat := (a + (U32MOD - b % U32MOD)) % U32MOD

/-- Entry of a numeric table row; out-of-range reads give the fill value 0
(used only where the Rust side also treats a missing entry as 0, or under
hypotheses that keep indices in range). -/
def natAt (l : List Nat) (i : Nat) : Nat := (l[i]?).getD 0

/-- Row of a table; a missing row is the empty row
(mirrors `get(idx).unwrap_or(&Vec::new())`). -/
def rowAt (m : List (List Nat)) (t : Nat) : List Nat := (m[t]?).getD []

/-- Entry of a `finish` vector; out-of-range reads give `false`
(mirrors `finish.get(idx).unwrap_or(&false)`). -/
def boolAt (l : List Bool) (i : Nat) : Bool := (l[i]?).getD false

/-- `ensure_capacity` from src/os/src/sync/mod.rs:
`vec.resize(vec.len().max(len), value)` — pad with `value` up to length `len`,
never shrink. -/
def ensureCap {α : Type} (l : List α) (len : Nat) (v : α) : List α :=
  l ++ List.replicate (len - l.length) v

/-- Pad a numeric row to length `i+1` and update index `i` by `f`
(the `ensure_capacity(..)[i] op= ..` pattern of sync/mod.rs). -/
def bumpAt (l : List Nat) (i : Nat) (f : Nat → Nat) : List Nat :=
  let p := ensureCap l (i + 1) 0
  p.set i (f (natAt p i))

/-- Pad a table to `t+1` rows and update row `t` by `g`
(the outer `ensure_capacity` of the allocation/need updates). -/
def bumpRow (m : List (List Nat)) (t : Nat) (g : List Nat → List Nat) :
    List (List Nat) :=
  let p := ensureCap m (t + 1) []
  p.set t (g ((p[t]?).getD []))

/-- The per-process resource-accounting block {available, allocation, need}
of the deadlock-detection support. -/
structure DDState where
  available : List Nat
  allocation : List (List Nat)
  need : List (List Nat)
deriving DecidableEq

/-- Available units of resource `r`. -/
def availEntry (s : DDState) (r : Nat) : Nat := natAt s.available r

/-- Units of resource `r` currently booked to task `t`. -/
def allocEntry (s : DDState) (t r : Nat) : Nat := natAt (rowAt s.allocation t) r

/-- Pending hypothetical request of task `t` for resource `r`. -/
def needEntry (s : DDState) (t r : Nat) : Nat := natAt (rowAt s.need t) r

/-- `deadlock_detection_available_alloc` (sync/mod.rs). -/
def availableAlloc (r c : Nat) (s : DDState) : DDState :=
  { s with available := bumpAt s.available r (fun a => u32add a c) }

/-- `deadlock_detection_available_free` (sync/mod.rs). -/
def availableFree (r c : Nat) (s : DDState) : DDState :=
  { s with available := bumpAt s.available r (fun a => u32sub a c) }

/-- `deadlock_detection_allocation_alloc` (sync/mod.rs). -/
def allocationAlloc (tid r : Nat) (s : DDState) : DDState :=
  { s with allocation :=
      bumpRow s.allocation tid (fun row => bumpAt row r (fun a => u32add a 1)) }

/-- `deadlock_detection_allocation_free` (sync/mod.rs). -/
def allocationFree (tid r : Nat) (s : DDState) : DDState :=
  { s with allocation :=
      bumpRow s.allocation tid (fun row => bumpAt row r (fun a => u32sub a 1)) }

/-- `deadlock_detection_need_alloc` (sync/mod.rs). -/
def needAlloc (tid r : Nat) (s : DDState) : DDState :=
  { s with need :=
      bumpRow s.need tid (fun row => bumpAt row r (fun a => u32add a 1)) }

/-- `deadlock_detection_need_free` (sync/mod.rs). -/
def needFree (tid r : Nat) (s : DDState) : DDState :=
  { s with need :=
      bumpRow s.need tid (fun row => bumpAt row r (fun a => u32sub a 1)) }

theorem ensureCap_length {α : Type} (l : List α) (len : Nat) (v : α) :
    (ensureCap l len v).length = max l.length len := by
  simp [ensureCap]
  omega

theorem ensureCap_getElem? {α : Type} (l : List α) (len : Nat) (v : α) (i : Nat)
    (h : i < l.length) : (ensureCap l len v)[i]? = l[i]? := by
  simp [ensureCap, List.getElem?_append_left h]

theorem ensureCap_getElem?_pad {α : Type} (l : List α) (len : Nat) (v : α)
    (i : Nat) (h1 : l.length ≤ i) (h2 : i < len) :
    (ensureCap l len v)[i]? = some v := by
  simp only [ensureCap]
  rw [List.getElem?_append_right h1]
  simp [List.getElem?_replicate]
  omega

theorem natAt_ensureCap (l : List Nat) (len i : Nat) :
    natAt (ensureCap l len 0) i = natAt l i := by
  by_cases h : i < l.length
  · simp [natAt, ensureCap_getElem? l len 0 i h]
  · push_neg at h
    by_cases h2 : i < len
    · simp [natAt, ensureCap_getElem?_pad l len 0 i h h2, List.getElem?_eq_none h]
    · push_neg at h2
      have : (ensureCap l len 0).length ≤ i := by
        rw [ensureCap_length]; omega
      simp [natAt, List.getElem?_eq_none this, List.getElem?_eq_none h]

theorem natAt_set_self (l : List Nat) (i : Nat) (x : Nat) (h : i < l.length) :
    natAt (l.set i x) i = x := by
  simp [natAt, List.getElem?_set_self h]

theorem natAt_set_ne (l : List Nat) (i j : Nat) (x : Nat) (h : i ≠ j) :
    natAt (l.set i x) j = natAt l j := by
  simp [natAt, List.getElem?_set_ne h]

theorem bumpAt_natAt_self (l : List Nat) (i : Nat) (f : Nat → Nat) :
    natAt (bumpAt l i f) i = f (natAt l i) := by
  have hlen : i < (ensureCap l (i + 1) 0).length := by
    rw [ensureCap_length]; omega
  simp only [bumpAt]
  rw [natAt_set_self _ _ _ hlen, natAt_ensureCap]

theorem bumpAt_natAt_ne (l : List Nat) (i j : Nat) (f : Nat → Nat) (h : i ≠ j) :
    natAt (bumpAt l i f) j = natAt l j := by
  simp only [bumpAt]
  rw [natAt_set_ne _ _ _ _ h, natAt_ensureCap]

theorem bumpAt_length (l : List Nat) (i : Nat) (f : Nat → Nat) :
    (bumpAt l i f).length = max l.length (i + 1) := by
  simp [bumpAt, ensureCap_length]

theorem rowAt_ensureCap (m : List (List Nat)) (len t : Nat) :
    rowAt (ensureCap m len []) t = rowAt m t := by
  by_cases h : t < m.length
  · simp [rowAt, ensureCap_getElem? m len [] t h]
  · push_neg at h
    by_cases h2 : t < len
    · simp [rowAt, ensureCap_getElem?_pad m len [] t h h2, List.getElem?_eq_none h]
    · push_neg at h2
      have : (ensureCap m len []).length ≤ t := by
        rw [ensureCap_length]; omega
      simp [rowAt, List.getElem?_eq_none this, List.getElem?_eq_none h]

theorem rowAt_set_self (m : List (List Nat)) (t : Nat) (row : List Nat)
    (h : t < m.length) : rowAt (m.set t row) t = row := by
  simp [rowAt, List.getElem?_set_self h]

theorem rowAt_set_ne (m : List (List Nat)) (t u : Nat) (row : List Nat)
    (h : t ≠ u) : rowAt (m.set t row) u = rowAt m u := by
  simp [rowAt, List.getElem?_set_ne h]

theorem bumpRow_rowAt_self (m : List (List Nat)) (t : Nat)
    (g : List Nat → List Nat) : rowAt (bumpRow m t g) t = g (rowAt m t) := by
  have hlen : t < (ensureCap m (t + 1) []).length := by
    rw [ensureCap_length]; omega
  simp only [bumpRow]
  rw [rowAt_set_self _ _ _ hlen]
  have : ((ensureCap m (t + 1) [])[t]?).getD [] = rowAt m t := rowAt_ensureCap m (t + 1) t
  rw [this]

theorem bumpRow_rowAt_ne (m : List (List Nat)) (t u : Nat)
    (g : List Nat → List Nat) (h : t ≠ u) : rowAt (bumpRow m t g) u = rowAt m u := by
  simp only [bumpRow]
  rw [rowAt_set_ne _ _ _ _ h, rowAt_ensureCap]

/-! ## The detector `detect_deadlock` (src/os/src/syscall/sync.rs, lines 311-379) -/

/-- True when every entry of a row is zero
(mirrors `alloc.iter().all(|x| *x == 0)`). -/
def isZeroRow (row : List Nat) : Bool := row.all (fun x => x == 0)

/-- The initial marking pass: walk the recorded allocation rows in order and
set `finish[idx] := true` for each all-zero row (mirrors the
`allocation.iter().enumerate().filter(..).for_each(..)` loop; `idx` is the
current row index). -/
def markZeroRows : List Bool → Nat → List (List Nat) → List Bool
  | finish, _, [] => finish
  | finish, idx, row :: rest =>
      markZeroRows (if isZeroRow row then finish.set idx true else finish)
        (idx + 1) rest

/-- Initial `finish` vector: `n` entries (one per task slot), all false, then
marked by the all-zero-allocation pass. -/
def finishInit (n : Nat) (alloc : List (List Nat)) : List Bool :=
  markZeroRows (List.replicate n false) 0 alloc

/-- Elementwise `need row ≤ work` scan, positionally
(mirrors `.iter().enumerate().all(|(idx, x)| *x <= work[idx])`; a row longer
than `work` makes the Rust index panic, so that case is only reached under
well-formedness hypotheses that exclude it). -/
def rowLe : List Nat → List Nat → Bool
  | [], _ => true
  | _ :: _, [] => false
  | x :: xs, w :: ws => decide (x ≤ w) && rowLe xs ws

/-- The `_find` helper: first task index `t < n` that is unfinished and whose
recorded need row (missing row = empty) fits under `work`. -/
def findTask (n : Nat) (need : List (List Nat)) (finish : List Bool)
    (work : List Nat) : Option Nat :=
  (List.range n).find? (fun t => !(boolAt finish t) && rowLe (rowAt need t) work)

/-- Add an allocation row into `work`, positionally
(mirrors `.iter().enumerate().for_each(|(idx, x)| work[idx] += x)`;
entries of `work` beyond the row are untouched). -/
def addWork : List Nat → List Nat → List Nat
  | work, [] => work
  | [], _ :: _ => []
  | w :: ws, x :: xs => u32add w x :: addWork ws xs

/-- The detector's release loop, with explicit fuel: while some task can
finish, add its allocation row to `work` and mark it finished.  Each
iteration marks a previously unfinished index `< n`, so fuel `n` reaches the
fixpoint of the unbounded Rust loop. -/
def bankerLoop (alloc need : List (List Nat)) (n : Nat) :
    Nat → List Bool → List Nat → List Bool × List Nat
  | 0, finish, work => (finish, work)
  | fuel + 1, finish, work =>
      match findTask n need finish work with
      | none => (finish, work)
      | some t =>
          bankerLoop alloc need n fuel (finish.set t true)
            (addWork work (rowAt alloc t))

/-- Verdict of the safety check proper (flag already known to be enabled):
`true` means some task stayed unfinished, i.e. the request is refused as
unsafe (`finish.iter().any(|it| !*it)`). -/
def detectVerdict (n : Nat) (s : DDState) : Bool :=
  ((bankerLoop s.allocation s.need n n (finishInit n s.allocation)
      s.available).1).any (fun b => !b)

/-- `detect_deadlock`: reports safe (false) immediately when the process's
detection flag is disabled, otherwise runs the safety check. -/
def detectDeadlock (flag : Bool) (n : Nat) (s : DDState) : Bool :=
  if !flag then false else detectVerdict n s

/-! ## Slot tables and syscall models (src/os/src/syscall/sync.rs) -/

/-- Slot-table creation step shared by `sys_mutex_create`,
`sys_semaphore_create` and `sys_condvar_create`: reuse the first empty slot,
else append; return the chosen index and the updated table. -/
def createSlot {α : Type} (x : α) : List (Option α) → Nat × List (Option α)
  | [] => (0, [some x])
  | none :: rest => (0, some x :: rest)
  | some y :: rest =>
      let p := createSlot x rest
      (p.1 + 1, some y :: p.2)

/-- Handle resolution `list[id].as_ref().unwrap()`: `none` models the kernel
fault (index panic for an out-of-range id, unwrap panic for an empty slot). -/
def resolveSlot {α : Type} (l : List (Option α)) (i : Nat) : Option α :=
  (l[i]?).bind id

/-- Observable steps of a syscall, in program order: table updates, the
safety check, and the real primitive operations. -/
inductive Ev where
  | needIncr
  | check
  | availDecr
  | allocIncr
  | needDecr
  | availIncr
  | allocDecr
  | acquire
  | release
deriving DecidableEq

/-- Result of a modelled syscall: return value (`none` = kernel fault),
final accounting state, and the trace of observable steps in order. -/
structure SysOut where
  ret : Option Int
  st : DDState
  tr : List Ev
deriving DecidableEq

/-- `sys_mutex_lock`: register the hypothetical need, run the check; on an
unsafe verdict return the deadlock sentinel at once (the need entry is left
as is); otherwise do the grant bookkeeping, then resolve the handle and
perform the blocking `mutex.lock()`. -/
def sysMutexLock (tid id n : Nat) (flag : Bool) (mutexList : List (Option Unit))
    (s : DDState) : SysOut :=
  let s1 := needAlloc tid id s
  if detectDeadlock flag n s1 then
    ⟨some (-0xDEAD), s1, [Ev.needIncr, Ev.check]⟩
  else
    let s2 := needFree tid id (allocationAlloc tid id (availableFree id 1 s1))
    match resolveSlot mutexList id with
    | none => ⟨none, s2, [Ev.needIncr, Ev.check, Ev.availDecr, Ev.allocIncr,
        Ev.needDecr]⟩
    | some _ => ⟨some 0, s2, [Ev.needIncr, Ev.check, Ev.availDecr, Ev.allocIncr,
        Ev.needDecr, Ev.acquire]⟩

/-- `sys_semaphore_down`: register the hypothetical need, run the check; on an
unsafe verdict return the sentinel at once (no revert); otherwise resolve the
handle, perform the blocking `sem.down()` first, and only then do the grant
bookkeeping. -/
def sysSemDown (tid id n : Nat) (flag : Bool) (semList : List (Option Unit))
    (s : DDState) : SysOut :=
  let s1 := needAlloc tid id s
  if detectDeadlock flag n s1 then
    ⟨some (-0xDEAD), s1, [Ev.needIncr, Ev.check]⟩
  else
    match resolveSlot semList id with
    | none => ⟨none, s1, [Ev.needIncr, Ev.check]⟩
    | some _ =>
        let s2 := needFree tid id (allocationAlloc tid id (availableFree id 1 s1))
        ⟨some 0, s2, [Ev.needIncr, Ev.check, Ev.acquire, Ev.availDecr,
          Ev.allocIncr, Ev.needDecr]⟩

/-- `sys_mutex_unlock`: release bookkeeping first (unconditional), then
resolve the handle and perform `mutex.unlock()`. -/
def sysMutexUnlock (tid id : Nat) (mutexList : List (Option Unit))
    (s : DDState) : SysOut :=
  let s1 := allocationFree tid id (availableAlloc id 1 s)
  match resolveSlot mutexList id with
  | none => ⟨none, s1, [Ev.availIncr, Ev.allocDecr]⟩
  | some _ => ⟨some 0, s1, [Ev.availIncr, Ev.allocDecr, Ev.release]⟩

/-- `sys_semaphore_up`: resolve the handle, perform `sem.up()`, then the
release bookkeeping (unconditional, no flag test). -/
def sysSemUp (tid id : Nat) (semList : List (Option Unit))
    (s : DDState) : SysOut :=
  match resolveSlot semList id with
  | none => ⟨none, s, []⟩
  | some _ =>
      let s1 := allocationFree tid id (availableAlloc id 1 s)
      ⟨some 0, s1, [Ev.release, Ev.availIncr, Ev.allocDecr]⟩

/-- `sys_enable_deadlock_detect`: `0` disables, `1` enables, anything else is
rejected with -1 and leaves the flag untouched.  Result is (return value,
new flag). -/
def sysEnableDeadlockDetect (v : Nat) (flag : Bool) : Int × Bool :=
  match v with
  | 0 => (0, false)
  | 1 => (0, true)
  | _ => (-1, flag)

/-! ## Claim C7: the detection-toggle syscall -/

/-- C7: `sys_enable_deadlock_detect` sets the flag to disabled and returns 0
on input 0, sets it to enabled and returns 0 on input 1, and on any other
input returns -1 leaving the flag unchanged. -/
theorem enable_toggle_contract (flag : Bool) (v : Nat) :
    sysEnableDeadlockDetect v flag =
      if v = 0 then ((0 : Int), false)
      else if v = 1 then ((0 : Int), true)
      else ((-1 : Int), flag) := by
  match v with
  | 0 => rfl
  | 1 => rfl
  | Nat.succ (Nat.succ k) => rfl

/-! ## Claim C4: a disabled flag always reports safe -/

/-- C4: with the process's deadlock-detection flag disabled, the detector
reports safe, and neither `sys_mutex_lock` nor `sys_semaphore_down` can
return the -0xDEAD refusal sentinel; the calls proceed as without
detection. -/
theorem disabled_flag_never_refuses (tid id n : Nat)
    (ml sl : List (Option Unit)) (s : DDState) :
    detectDeadlock false n s = false ∧
    (sysMutexLock tid id n false ml s).ret ≠ some (-0xDEAD) ∧
    (sysSemDown tid id n false sl s).ret ≠ some (-0xDEAD) := by
  refine ⟨rfl, ?_, ?_⟩
  · cases h : resolveSlot ml id <;>
      simp [sysMutexLock, detectDeadlock, h]
  · cases h : resolveSlot sl id <;>
      simp [sysSemDown, detectDeadlock, h]

/-! ## Claim C1: an unsafe verdict does not revert the need entry -/

/-- C1 (code bug evaluation): on a refused request the syscall returns the
-0xDEAD sentinel and leaves `available` and `allocation` untouched, but the
`need[t][r] += 1` registered for the hypothetical request is never reverted:
the final `need` entry is 1, not 0.  Evaluated on two concrete refused
requests — a `sys_semaphore_down` on a zero-count semaphore, and a
`sys_mutex_lock` while the unit is held by a task with a pending need. -/
theorem refusal_leaves_need_registered :
    (sysSemDown 0 0 1 true [some ()] ⟨[0], [], []⟩).ret = some (-0xDEAD) ∧
    needEntry (sysSemDown 0 0 1 true [some ()] ⟨[0], [], []⟩).st 0 0 = 1 ∧
    (sysSemDown 0 0 1 true [some ()] ⟨[0], [], []⟩).st.available = [0] ∧
    (sysSemDown 0 0 1 true [some ()] ⟨[0], [], []⟩).st.allocation = [] ∧
    (sysMutexLock 1 0 2 true [some ()] ⟨[0], [[1]], [[1]]⟩).ret
      = some (-0xDEAD) ∧
    needEntry (sysMutexLock 1 0 2 true [some ()] ⟨[0], [[1]], [[1]]⟩).st 1 0
      = 1 ∧
    (sysMutexLock 1 0 2 true [some ()] ⟨[0], [[1]], [[1]]⟩).st.available
      = [0] ∧
    (sysMutexLock 1 0 2 true [some ()] ⟨[0], [[1]], [[1]]⟩).st.allocation
      = [[1]] := by
  decide

/-! ## Claim C9: invalid handles fault instead of returning an error -/

/-- C9: a handle that is out of range of the slot table or whose slot is
empty makes the resolution `list[id].as_ref().unwrap()` fault the kernel
(modelled as `none`): `sys_semaphore_up` and `sys_mutex_lock` (detection
disabled) propagate the fault rather than returning a recoverable error
result. -/
theorem invalid_handle_faults (tid i n : Nat) (ml sl : List (Option Unit))
    (s : DDState) :
    (resolveSlot sl i = none ↔ (sl.length ≤ i ∨ sl[i]? = some none)) ∧
    (resolveSlot sl i = none → (sysSemUp tid i sl s).ret = none) ∧
    (resolveSlot ml i = none → (sysMutexLock tid i n false ml s).ret = none) := by
  refine ⟨?_, ?_, ?_⟩
  · unfold resolveSlot
    cases h : sl[i]? with
    | none =>
        have hlen : sl.length ≤ i := List.getElem?_eq_none_iff.mp h
        simp [hlen]
    | some o =>
        have hlt : i < sl.length := by
          by_contra hc
          push_neg at hc
          rw [List.getElem?_eq_none_iff.mpr hc] at h
          cases h
        cases o with
        | none => simp
        | some u => simp [show ¬ sl.length ≤ i from Nat.not_le.mpr hlt]
  · intro h
    simp [sysSemUp, h]
  · intro h
    simp [sysMutexLock, detectDeadlock, h]

/-- C9 witness: a one-slot table faults on handle 1 for both operations. -/
theorem invalid_handle_faults_witness :
    (sysSemUp 0 1 [some ()] ⟨[], [], []⟩).ret = none ∧
    (sysMutexLock 0 1 1 false [some ()] ⟨[], [], []⟩).ret = none :=
  ⟨(invalid_handle_faults 0 1 1 [some ()] [some ()] ⟨[], [], []⟩).2.1 (by decide),
   (invalid_handle_faults 0 1 1 [some ()] [some ()] ⟨[], [], []⟩).2.2 (by decide)⟩

/-! ## Release-path bookkeeping (shared by C5 and C10) -/

/-- Total units of resource `r` booked across all recorded allocation rows. -/
def allocColumn (s : DDState) (r : Nat) : Nat :=
  (s.allocation.map (fun row => natAt row r)).sum

/-- The conservation quantity of the data-model invariant:
free units plus booked units of resource `r`. -/
def resourceTotal (s : DDState) (r : Nat) : Nat :=
  availEntry s r + allocColumn s r

theorem natAt_nil (r : Nat) : natAt [] r = 0 := by
  simp [natAt]

theorem sum_map_ensureCap (m : List (List Nat)) (len r : Nat) :
    ((ensureCap m len []).map (fun row => natAt row r)).sum
      = (m.map (fun row => natAt row r)).sum := by
  simp [ensureCap, natAt]

theorem sum_set_nat (l : List Nat) (i a : Nat) (h : i < l.length) :
    (l.set i a).sum + natAt l i = l.sum + a := by
  induction l generalizing i with
  | nil => simp at h
  | cons x xs ih =>
      cases i with
      | zero => simp [natAt]; omega
      | succ j =>
          have hj : j < xs.length := by simpa using h
          have := ih j hj
          simp only [List.set_cons_succ, List.sum_cons]
          have hnat : natAt (x :: xs) (j + 1) = natAt xs j := by
            simp [natAt]
          rw [hnat]
          omega

/-- The accounting state after the release bookkeeping
`available[r] += 1; allocation[t][r] -= 1`. -/
def releaseState (tid r : Nat) (s : DDState) : DDState :=
  allocationFree tid r (availableAlloc r 1 s)

theorem releaseState_avail (tid r : Nat) (s : DDState) :
    availEntry (releaseState tid r s) r = u32add (availEntry s r) 1 := by
  simp only [releaseState, allocationFree, availableAlloc, availEntry]
  exact bumpAt_natAt_self s.available r (fun a => u32add a 1)

theorem releaseState_allocEntry (tid r : Nat) (s : DDState) :
    allocEntry (releaseState tid r s) tid r = u32sub (allocEntry s tid r) 1 := by
  simp only [releaseState, allocationFree, availableAlloc, allocEntry]
  rw [bumpRow_rowAt_self]
  exact bumpAt_natAt_self (rowAt s.allocation tid) r (fun a => u32sub a 1)

theorem releaseState_column (tid r : Nat) (s : DDState) :
    allocColumn (releaseState tid r s) r + allocEntry s tid r
      = allocColumn s r + u32sub (allocEntry s tid r) 1 := by
  have hlen : tid < (ensureCap s.allocation (tid + 1) []).length := by
    rw [ensureCap_length]; omega
  have hsome : (ensureCap s.allocation (tid + 1) [])[tid]?
      = some (rowAt s.allocation tid) := by
    rw [List.getElem?_eq_getElem hlen]
    have h2 := rowAt_ensureCap s.allocation (tid + 1) tid
    simp only [rowAt, List.getElem?_eq_getElem hlen, Option.getD_some] at h2
    rw [h2]
    rfl
  have halloc : (releaseState tid r s).allocation
      = (ensureCap s.allocation (tid + 1) []).set tid
          (bumpAt (rowAt s.allocation tid) r (fun a => u32sub a 1)) := by
    simp only [releaseState, allocationFree, availableAlloc, bumpRow, hsome,
      Option.getD_some]
  have hval : natAt (bumpAt (rowAt s.allocation tid) r (fun a => u32sub a 1)) r
      = u32sub (allocEntry s tid r) 1 :=
    bumpAt_natAt_self (rowAt s.allocation tid) r (fun a => u32sub a 1)
  have hnat : natAt ((ensureCap s.allocation (tid + 1) []).map
      (fun row => natAt row r)) tid = allocEntry s tid r := by
    simp only [natAt, List.getElem?_map, hsome, Option.map_some, Option.getD_some]
    rfl
  have hsum := sum_set_nat ((ensureCap s.allocation (tid + 1) []).map
      (fun row => natAt row r)) tid
    (natAt (bumpAt (rowAt s.allocation tid) r (fun a => u32sub a 1)) r)
    (by simpa using hlen)
  simp only [allocColumn, halloc, List.map_set]
  rw [hval] at hsum ⊢
  rw [hnat] at hsum
  rw [sum_map_ensureCap] at hsum
  exact hsum

/-! ## Claim C5: release bookkeeping is unconditional -/

/-- C5: `sys_mutex_unlock` and `sys_semaphore_up` always perform the release
bookkeeping `available[r] += 1`, `allocation[t][r] -= 1`; the models take no
detection flag at all, so the updates do not depend on it.  (For
`sys_semaphore_up` the handle must resolve, since the handle lookup precedes
the bookkeeping there.) -/
theorem release_bookkeeping_unconditional (tid r : Nat)
    (ml sl : List (Option Unit)) (s : DDState) :
    (availEntry (sysMutexUnlock tid r ml s).st r = u32add (availEntry s r) 1 ∧
     allocEntry (sysMutexUnlock tid r ml s).st tid r
       = u32sub (allocEntry s tid r) 1) ∧
    (resolveSlot sl r ≠ none →
     availEntry (sysSemUp tid r sl s).st r = u32add (availEntry s r) 1 ∧
     allocEntry (sysSemUp tid r sl s).st tid r
       = u32sub (allocEntry s tid r) 1) := by
  have hmu : (sysMutexUnlock tid r ml s).st = releaseState tid r s := by
    cases h : resolveSlot ml r <;> simp [sysMutexUnlock, h, releaseState]
  refine ⟨⟨?_, ?_⟩, ?_⟩
  · rw [hmu]; exact releaseState_avail tid r s
  · rw [hmu]; exact releaseState_allocEntry tid r s
  · intro hres
    have hsu : (sysSemUp tid r sl s).st = releaseState tid r s := by
      cases h : resolveSlot sl r with
      | none => exact absurd h hres
      | some u => simp [sysSemUp, h, releaseState]
    rw [hsu]
    exact ⟨releaseState_avail tid r s, releaseState_allocEntry tid r s⟩

/-- C5 witness: a concrete release on a held unit updates both entries. -/
theorem release_bookkeeping_unconditional_witness :
    availEntry (sysSemUp 0 0 [some ()] ⟨[0], [[1]], []⟩).st 0 = 1 ∧
    allocEntry (sysSemUp 0 0 [some ()] ⟨[0], [[1]], []⟩).st 0 0 = 0 := by
  have h := (release_bookkeeping_unconditional 0 0 [some ()] [some ()]
    ⟨[0], [[1]], []⟩).2 (by decide)
  refine ⟨?_, ?_⟩
  · rw [h.1]; decide
  · rw [h.2]; decide

/-! ## Claim C10: an unmatched release underflows the allocation entry -/

/-- C10: releasing a resource whose allocation entry is 0 (no matching
successful acquire) drives the u32 entry through a wrapping subtraction to
2^32 - 1, and the conservation quantity `available[r] + Σ allocation[t][r]`
jumps by 2^32 instead of staying constant — the invariant is broken.  Shown
for `sys_mutex_unlock` (bookkeeping precedes the handle lookup) and for
`sys_semaphore_up` on a resolvable handle. -/
theorem unmatched_release_underflows (tid r : Nat)
    (ml sl : List (Option Unit)) (s : DDState)
    (hzero : allocEntry s tid r = 0)
    (hroom : availEntry s r + 1 < U32MOD) :
    (allocEntry (sysMutexUnlock tid r ml s).st tid r = U32MOD - 1 ∧
     resourceTotal (sysMutexUnlock tid r ml s).st r
       = resourceTotal s r + U32MOD) ∧
    (resolveSlot sl r ≠ none →
     allocEntry (sysSemUp tid r sl s).st tid r = U32MOD - 1 ∧
     resourceTotal (sysSemUp tid r sl s).st r
       = resourceTotal s r + U32MOD) := by
  have hwrap : u32sub (allocEntry s tid r) 1 = U32MOD - 1 := by
    rw [hzero]
    decide
  have havail : u32add (availEntry s r) 1 = availEntry s r + 1 := by
    simp only [u32add]
    exact Nat.mod_eq_of_lt hroom
  have hrel : resourceTotal (releaseState tid r s) r
      = resourceTotal s r + U32MOD := by
    have hcol := releaseState_column tid r s
    rw [hwrap, hzero] at hcol
    simp only [resourceTotal, releaseState_avail, havail]
    have hmod : (0 : Nat) < U32MOD := by decide
    omega
  have hmu : (sysMutexUnlock tid r ml s).st = releaseState tid r s := by
    cases h : resolveSlot ml r <;> simp [sysMutexUnlock, h, releaseState]
  refine ⟨⟨?_, ?_⟩, ?_⟩
  · rw [hmu, releaseState_allocEntry, hwrap]
  · rw [hmu]; exact hrel
  · intro hres
    have hsu : (sysSemUp tid r sl s).st = releaseState tid r s := by
      cases h : resolveSlot sl r with
      | none => exact absurd h hres
      | some u => simp [sysSemUp, h, releaseState]
    rw [hsu, releaseState_allocEntry, hwrap]
    exact ⟨rfl, hrel⟩

/-- C10 witness: a semaphore-up with no matching down wraps the entry to
2^32 - 1 and inflates the conservation total by 2^32. -/
theorem unmatched_release_underflows_witness :
    allocEntry (sysSemUp 0 0 [some ()] ⟨[1], [[0]], []⟩).st 0 0
      = U32MOD - 1 ∧
    resourceTotal (sysSemUp 0 0 [some ()] ⟨[1], [[0]], []⟩).st 0
      = resourceTotal ⟨[1], [[0]], []⟩ 0 + U32MOD :=
  (unmatched_release_underflows 0 0 [some ()] [some ()] ⟨[1], [[0]], []⟩
    (by decide) (by decide)).2 (by decide)

/-! ## Claim C8: created handles occupy a slot that was empty -/

/-- C8: every primitive-create call returns the index of the first empty slot
of the table (or appends a new slot and returns its index), stores the new
primitive there, and in particular never returns the id of a currently-live
slot. -/
theorem create_returns_free_slot {α : Type} (x : α) (l : List (Option α)) :
    ((createSlot x l).1 = l.length ∨ l[(createSlot x l).1]? = some none) ∧
    ((createSlot x l).2)[(createSlot x l).1]? = some (some x) ∧
    (∀ j, j < (createSlot x l).1 → ∃ y, l[j]? = some (some y)) ∧
    (∀ j y, l[j]? = some (some y) → (createSlot x l).1 ≠ j) := by
  induction l with
  | nil =>
      refine ⟨Or.inl rfl, by simp [createSlot], ?_, ?_⟩
      · intro j hj
        exact absurd hj (by simp [createSlot])
      · intro j y hj
        simp at hj
  | cons hd tl ih =>
      cases hd with
      | none =>
          refine ⟨Or.inr (by simp [createSlot]), by simp [createSlot], ?_, ?_⟩
          · intro j hj
            exact absurd hj (by simp [createSlot])
          · intro j y hj
            cases j with
            | zero => simp [createSlot] at hj ⊢
            | succ k => simp [createSlot]
      | some z =>
          obtain ⟨ih1, ih2, ih3, ih4⟩ := ih
          refine ⟨?_, ?_, ?_, ?_⟩
          · rcases ih1 with h | h
            · left
              simp [createSlot, h]
            · right
              simpa [createSlot] using h
          · simpa [createSlot] using ih2
          · intro j hj
            cases j with
            | zero => exact ⟨z, by simp⟩
            | succ k =>
                have hk : k < (createSlot x tl).1 := by
                  simpa [createSlot] using hj
                obtain ⟨y, hy⟩ := ih3 k hk
                exact ⟨y, by simpa using hy⟩
          · intro j y hj
            cases j with
            | zero => simp [createSlot]
            | succ k =>
                have hk : tl[k]? = some (some y) := by simpa using hj
                have := ih4 k y hk
                simp [createSlot]
                omega

/-- C8 witness: on table [some 1, none, some 2] the create call fills slot 1
and in particular does not return the live handle 0. -/
theorem create_returns_free_slot_witness :
    (createSlot (5 : Nat) [some 1, none, some 2]).1 ≠ 0 :=
  (create_returns_free_slot 5 [some 1, none, some 2]).2.2.2 0 1 (by decide)

/-! ## Claim C3: order of grant bookkeeping versus the real acquire -/

/-- Index of the first occurrence of an event in a trace. -/
def evIdx (tr : List Ev) (e : Ev) : Option Nat := tr.findIdx? (fun x => x == e)

/-- True when every grant-bookkeeping step of the trace happens before the
real acquire (vacuously true when no acquire happened; false when an acquire
happened without some bookkeeping step). -/
def updatesPrecedeAcquire (tr : List Ev) : Bool :=
  match evIdx tr Ev.acquire with
  | none => true
  | some k =>
      [Ev.availDecr, Ev.allocIncr, Ev.needDecr].all (fun e =>
        match evIdx tr e with
        | none => false
        | some j => decide (j < k))

/-- C3 counterexample: a concrete granted (safe, return 0) semaphore-down in
which the real `sem.down()` happens before the three bookkeeping updates, so
the claim that the updates all precede the blocking acquire is false for
`sys_semaphore_down`. -/
theorem semaphore_updates_after_acquire :
    (sysSemDown 0 0 1 true [some ()] ⟨[1], [], []⟩).ret = some 0 ∧
    updatesPrecedeAcquire (sysSemDown 0 0 1 true [some ()] ⟨[1], [], []⟩).tr
      = false := by
  decide

/-- C3 amended: on a safe verdict `sys_mutex_lock` performs
`available[r] -= 1`, `allocation[t][r] += 1`, `need[t][r] -= 1` before the
real `mutex.lock()`, but `sys_semaphore_down` performs the real `sem.down()`
first and the same three updates only after it returns. -/
theorem grant_update_order (tid id n : Nat) (flag : Bool)
    (ml sl : List (Option Unit)) (s : DDState) :
    updatesPrecedeAcquire (sysMutexLock tid id n flag ml s).tr = true ∧
    ((sysSemDown tid id n flag sl s).ret = some 0 →
      (sysSemDown tid id n flag sl s).tr =
        [Ev.needIncr, Ev.check, Ev.acquire, Ev.availDecr, Ev.allocIncr,
         Ev.needDecr]) := by
  constructor
  · by_cases hd : detectDeadlock flag n (needAlloc tid id s)
    · simp only [sysMutexLock, hd, if_true]
      decide
    · simp only [sysMutexLock, hd, if_false]
      cases h : resolveSlot ml id <;> simp [h] <;> decide
  · intro hret
    by_cases hd : detectDeadlock flag n (needAlloc tid id s)
    · simp only [sysSemDown, hd, if_true] at hret
      exact absurd hret (by decide)
    · simp only [sysSemDown, hd, if_false] at hret ⊢
      cases h : resolveSlot sl id with
      | none => simp [h] at hret
      | some u => simp [h]

/-- C3 witness (amended claim): the concrete safe semaphore-down produces
exactly the acquire-then-update trace. -/
theorem grant_update_order_witness :
    (sysSemDown 0 0 1 true [some ()] ⟨[1], [], []⟩).tr =
      [Ev.needIncr, Ev.check, Ev.acquire, Ev.availDecr, Ev.allocIncr,
       Ev.needDecr] :=
  (grant_update_order 0 0 1 true [some ()] [some ()] ⟨[1], [], []⟩).2 (by decide)

/-! ## Stride scheduler (src/os/src/task/manager.rs) -/

/-- Scheduling-relevant fields of a task control block. -/
structure STask where
  tid : Nat
  priority : Nat
  stride : Nat
deriving DecidableEq

/-- `const BIG_STRIDE: usize = 0xFFFF - 1;` (manager.rs line 18). -/
def BIG_STRIDE : Nat := 0xFFFF - 1

/-- Modelled from the spec: the `Ord` instance of `ComparableTCB`
(task/task.rs) is not among the provided sources; per the spec the ready
heap `BinaryHeap<Reverse<ComparableTCB>>` orders tasks by accumulated
stride, smallest first, ties broken deterministically.  `popMin` removes
and returns the first task of minimal stride from the ready list. -/
def popMin : List STask → Option (STask × List STask)
  | [] => none
  | t :: ts =>
      match popMin ts with
      | none => some (t, [])
      | some (u, rest) =>
          if t.stride ≤ u.stride then some (t, ts) else some (u, t :: rest)

/-- `TaskManager::fetch`: pop the minimal-stride task; before returning it,
add `pass = BIG_STRIDE / priority` to its stride (usize arithmetic). -/
def tmFetch (l : List STask) : Option (STask × List STask) :=
  (popMin l).map (fun p =>
    ({ p.1 with stride := (p.1.stride + BIG_STRIDE / p.1.priority) % U64MOD },
     p.2))

theorem popMin_eq_none (l : List STask) : popMin l = none ↔ l = [] := by
  cases l with
  | nil => simp [popMin]
  | cons t ts =>
      simp only [popMin]
      cases h : popMin ts with
      | none => simp
      | some p =>
          obtain ⟨u, rest⟩ := p
          by_cases hle : t.stride ≤ u.stride <;> simp [hle]

theorem popMin_spec (l : List STask) (u : STask) (rest : List STask)
    (h : popMin l = some (u, rest)) :
    u ∈ l ∧ (∀ v ∈ l, u.stride ≤ v.stride) ∧ l.Perm (u :: rest) := by
  induction l generalizing u rest with
  | nil => simp [popMin] at h
  | cons t ts ih =>
      simp only [popMin] at h
      cases hp : popMin ts with
      | none =>
          rw [hp] at h
          have hts : ts = [] := (popMin_eq_none ts).mp hp
          simp only [Option.some.injEq, Prod.mk.injEq] at h
          obtain ⟨h1, h2⟩ := h
          subst h1
          subst h2
          subst hts
          exact ⟨by simp, by simp, List.Perm.refl _⟩
      | some p =>
          obtain ⟨u0, r0⟩ := p
          rw [hp] at h
          dsimp only at h
          obtain ⟨hmem, hmin, hperm⟩ := ih u0 r0 hp
          by_cases hle : t.stride ≤ u0.stride
          · rw [if_pos hle] at h
            simp only [Option.some.injEq, Prod.mk.injEq] at h
            obtain ⟨h1, h2⟩ := h
            subst h1
            subst h2
            refine ⟨by simp, ?_, List.Perm.refl _⟩
            intro v hv
            rcases List.mem_cons.mp hv with hv | hv
            · subst hv; exact Nat.le_refl _
            · exact Nat.le_trans hle (hmin v hv)
          · rw [if_neg hle] at h
            simp only [Option.some.injEq, Prod.mk.injEq] at h
            obtain ⟨h1, h2⟩ := h
            subst h1
            subst h2
            refine ⟨List.mem_cons_of_mem t hmem, ?_, ?_⟩
            · intro v hv
              rcases List.mem_cons.mp hv with hv | hv
              · subst hv
                exact Nat.le_of_lt (Nat.lt_of_not_le hle)
              · exact hmin v hv
            · exact List.Perm.trans (List.Perm.cons t hperm)
                (List.Perm.swap u0 t r0)

/-! ## Claim C6: fetch contract of the stride scheduler -/

/-- C6: `fetch()` on an empty ready set signals empty (`none`); on a
non-empty set it removes and returns a task whose accumulated stride is
minimal among the ready tasks, with `pass = BIG_STRIDE / priority`
(`BIG_STRIDE = 0xFFFF - 1 = 0xFFFE`) added to that task's stride before it
is returned.  The priority hypothesis keeps the model inside the domain
where the Rust division does not panic (the spec requires priority ≥ 1). -/
theorem fetch_contract :
    tmFetch [] = none ∧
    ∀ (l : List STask) (t : STask) (rest : List STask),
      (∀ u ∈ l, 1 ≤ u.priority) → tmFetch l = some (t, rest) →
      ∃ t0, t0 ∈ l ∧ (∀ v ∈ l, t0.stride ≤ v.stride) ∧
        l.Perm (t0 :: rest) ∧
        t = { t0 with
              stride := (t0.stride + BIG_STRIDE / t0.priority) % U64MOD } := by
  refine ⟨rfl, ?_⟩
  intro l t rest _ h
  simp only [tmFetch] at h
  cases hp : popMin l with
  | none => rw [hp] at h; simp at h
  | some p =>
      obtain ⟨u, r⟩ := p
      rw [hp] at h
      simp only [Option.map_some', Option.some.injEq, Prod.mk.injEq] at h
      obtain ⟨h1, h2⟩ := h
      obtain ⟨hmem, hmin, hperm⟩ := popMin_spec l u r hp
      subst h2
      exact ⟨u, hmem, hmin, hperm, h1.symm⟩

/-- C6 witness: from ready tasks with strides 5 and 3 and priorities 2 and 1,
fetch returns the stride-3 task with BIG_STRIDE added to its stride. -/
theorem fetch_contract_witness :
    ∃ t0, t0 ∈ [STask.mk 0 2 5, STask.mk 1 1 3] ∧
      (∀ v ∈ [STask.mk 0 2 5, STask.mk 1 1 3], t0.stride ≤ v.stride) ∧
      List.Perm [STask.mk 0 2 5, STask.mk 1 1 3] (t0 :: [STask.mk 0 2 5]) ∧
      STask.mk 1 1 65537 =
        { t0 with
          stride := (t0.stride + BIG_STRIDE / t0.priority) % U64MOD } :=
  fetch_contract.2 [STask.mk 0 2 5, STask.mk 1 1 3] (STask.mk 1 1 65537)
    [STask.mk 0 2 5] (by decide) (by decide)

/-! ## Claim C2: the safety check against the spec's Banker simulation.
The simulation is formulated with finished tasks as a set, the fit test as a
universally quantified inequality, and selection and loop shape as in the
spec's words.  Two initializations are given: the spec-faithful one
(`holdsNothingTasks`, where a task with no recorded allocation row holds
nothing — the tables are zero-initialized — and therefore starts finished)
and the code's one (`zeroAllocTasks`, which walks only the recorded rows, so
a task with no recorded row starts unfinished).  They produce different
verdicts on reachable snapshots, which refutes the claim as stated; the
detector is then proved equal to the simulation with the recorded-row
initialization. -/

theorem boolAt_replicate (n t : Nat) : boolAt (List.replicate n false) t = false := by
  by_cases h : t < n
  · simp [boolAt, List.getElem?_replicate, h]
  · simp [boolAt, List.getElem?_replicate, h]

theorem boolAt_set_self (l : List Bool) (i : Nat) (b : Bool) (h : i < l.length) :
    boolAt (l.set i b) i = b := by
  simp [boolAt, List.getElem?_set_self h]

theorem boolAt_set_ne (l : List Bool) (i j : Nat) (b : Bool) (h : i ≠ j) :
    boolAt (l.set i b) j = boolAt l j := by
  simp [boolAt, List.getElem?_set_ne h]

/-- The all-zero test agrees with the spec's "holds nothing" reading of a
recorded row. -/
theorem isZeroRow_iff (row : List Nat) :
    isZeroRow row = true ↔ ∀ x ∈ row, x = 0 := by
  simp [isZeroRow]

theorem markZeroRows_length (alloc : List (List Nat)) :
    ∀ (f : List Bool) (idx : Nat), (markZeroRows f idx alloc).length = f.length := by
  induction alloc with
  | nil => intro f idx; rfl
  | cons row rest ih =>
      intro f idx
      simp only [markZeroRows]
      rw [ih]
      by_cases hz : isZeroRow row <;> simp [hz]

/-- Pointwise description of the marking pass: position `t` is set exactly
when it was already set or some recorded all-zero row lands on it (the
length hypothesis keeps every write in bounds, as in the kernel where
`finish` always has one entry per task slot). -/
theorem markZeroRows_boolAt (alloc : List (List Nat)) :
    ∀ (f : List Bool) (idx t : Nat), idx + alloc.length ≤ f.length →
    boolAt (markZeroRows f idx alloc) t
      = (boolAt f t || (decide (idx ≤ t) && decide (t - idx < alloc.length)
          && isZeroRow (rowAt alloc (t - idx)))) := by
  induction alloc with
  | nil =>
      intro f idx t _
      simp [markZeroRows]
  | cons row rest ih =>
      intro f idx t hlen
      have hidxf : idx < f.length := by
        simp only [List.length_cons] at hlen
        omega
      have hlen2 : (idx + 1) + rest.length
          ≤ (if isZeroRow row then f.set idx true else f).length := by
        have hsame : (if isZeroRow row then f.set idx true else f).length
            = f.length := by
          by_cases hz : isZeroRow row <;> simp [hz]
        rw [hsame]
        simp only [List.length_cons] at hlen
        omega
      simp only [markZeroRows]
      rw [ih _ (idx + 1) t hlen2]
      by_cases hte : t = idx
      · subst hte
        have h1 : ¬ (t + 1 ≤ t) := by omega
        have h2 : t - t = 0 := by omega
        have h3 : (0 : Nat) < rest.length + 1 := by omega
        by_cases hz : isZeroRow row
        · simp [hz, h1, h2, h3, boolAt_set_self f t true hidxf, rowAt]
        · simp [hz, h1, h2, h3, rowAt]
      · have hfeq : boolAt (if isZeroRow row then f.set idx true else f) t
            = boolAt f t := by
          by_cases hz : isZeroRow row
          · simp [hz, boolAt_set_ne f idx t true (fun he => hte he.symm)]
          · simp [hz]
        rw [hfeq]
        by_cases hlt : t < idx
        · have h1 : ¬ (idx ≤ t) := by omega
          have h2 : ¬ (idx + 1 ≤ t) := by omega
          simp [h1, h2]
        · have hgt : idx + 1 ≤ t := by omega
          have h1 : idx ≤ t := by omega
          obtain ⟨k, hk⟩ : ∃ k, t - idx = k + 1 := ⟨t - idx - 1, by omega⟩
          have hk2 : t - (idx + 1) = k := by omega
          have hrow : rowAt (row :: rest) (t - idx) = rowAt rest (t - (idx + 1)) := by
            rw [hk, hk2]
            simp [rowAt]
          rw [hrow]
          have e1 : decide (idx + 1 ≤ t) = decide (idx ≤ t) := by
            rw [decide_eq_decide]
            omega
          have e2 : decide (t - (idx + 1) < rest.length)
              = decide (t - idx < rest.length + 1) := by
            rw [decide_eq_decide]
            omega
          rw [e1, e2]
          simp [List.length_cons]

/-- The spec's elementwise fit test `need[t][*] ≤ work[*]`. -/
def rowLePure (row work : List Nat) : Bool :=
  decide (∀ i, i < row.length → natAt row i ≤ natAt work i)

/-- On rows that fit inside `work` (no index panic on the Rust side), the
sequential scan of the code equals the spec's quantified fit test. -/
theorem rowLe_eq_pure : ∀ (row work : List Nat), row.length ≤ work.length →
    rowLe row work = rowLePure row work
  | [], work, _ => by simp [rowLe, rowLePure]
  | x :: xs, [], h => by simp at h
  | x :: xs, w :: ws, h => by
      have hlen : xs.length ≤ ws.length := by simpa using h
      have hiff : (∀ i, i < (x :: xs).length → natAt (x :: xs) i ≤ natAt (w :: ws) i)
          ↔ (x ≤ w ∧ ∀ i, i < xs.length → natAt xs i ≤ natAt ws i) := by
        constructor
        · intro hall
          refine ⟨?_, ?_⟩
          · have := hall 0 (by simp)
            simpa [natAt] using this
          · intro i hi
            have := hall (i + 1) (by simp; omega)
            simpa [natAt] using this
        · rintro ⟨h0, hs⟩ i hi
          cases i with
          | zero => simpa [natAt] using h0
          | succ j =>
              have hj : j < xs.length := by
                simp only [List.length_cons] at hi
                omega
              simpa [natAt] using hs j hj
      simp only [rowLe]
      rw [rowLe_eq_pure xs ws hlen]
      simp only [rowLePure]
      rw [decide_eq_decide.mpr hiff, Bool.decide_and]

theorem addWork_length : ∀ (w row : List Nat), (addWork w row).length = w.length
  | [], [] => rfl
  | _ :: _, [] => rfl
  | [], _ :: _ => rfl
  | a :: as, x :: xs => by simp [addWork, addWork_length as xs]

/-- Tasks finished at initialization per the spec's words: every task whose
full allocation row is zero, i.e. that holds nothing.  The tables are
zero-initialized and only grown, so a task with no recorded allocation row
(its row is the default all-zero row) also holds nothing and starts
finished. -/
def holdsNothingTasks (n : Nat) (alloc : List (List Nat)) : Finset Nat :=
  (Finset.range n).filter (fun t => ∀ x ∈ rowAt alloc t, x = 0)

/-- Tasks finished at initialization as the code computes it: the marking
pass iterates over the recorded allocation rows only, so a task whose row
was never recorded starts unfinished even though it holds nothing.  This is
the initialization of the amended claim. -/
def zeroAllocTasks (n : Nat) (alloc : List (List Nat)) : Finset Nat :=
  (Finset.range n).filter (fun t => t < alloc.length ∧ ∀ x ∈ rowAt alloc t, x = 0)

/-- The spec's selection: any (here: the first) unfinished task whose need
row fits under `work`. -/
def specFind (n : Nat) (need : List (List Nat)) (finished : Finset Nat)
    (work : List Nat) : Option Nat :=
  (List.range n).find? (fun t => decide (t ∉ finished) && rowLePure (rowAt need t) work)

/-- The spec's release loop: repeatedly mark a fitting task finished and add
its allocation row into `work`; stop when none fits. -/
def specLoop (alloc need : List (List Nat)) (n : Nat) :
    Nat → Finset Nat → List Nat → Finset Nat × List Nat
  | 0, finished, work => (finished, work)
  | fuel + 1, finished, work =>
      match specFind n need finished work with
      | none => (finished, work)
      | some t =>
          specLoop alloc need n fuel (insert t finished)
            (addWork work (rowAt alloc t))

/-- The spec's Banker simulation as written: safe iff every task of the
process ends marked finished, starting from the holds-nothing
initialization. -/
def bankersSafeSpec (n : Nat) (s : DDState) : Bool :=
  decide (∀ t, t < n →
    t ∈ (specLoop s.allocation s.need n n (holdsNothingTasks n s.allocation)
          s.available).1)

/-- The Banker simulation of the amended claim: identical, but starting from
the code's recorded-row initialization. -/
def bankersSafe (n : Nat) (s : DDState) : Bool :=
  decide (∀ t, t < n →
    t ∈ (specLoop s.allocation s.need n n (zeroAllocTasks n s.allocation)
          s.available).1)

theorem find?_congr_on {α : Type} (l : List α) (p q : α → Bool)
    (h : ∀ a ∈ l, p a = q a) : l.find? p = l.find? q := by
  induction l with
  | nil => rfl
  | cons a as ih =>
      have hpa : p a = q a := h a (List.mem_cons_self a as)
      rw [List.find?_cons, List.find?_cons, hpa]
      cases hqa : q a with
      | true => rfl
      | false => exact ih (fun b hb => h b (List.mem_cons_of_mem a hb))

/-- Simulation between the code's loop (finish as a Bool vector, sequential
fit scan) and the spec's loop (finished as a set, quantified fit test): from
pointwise-related states with the same work vector, both loops produce the
same work and pointwise-related finish states on the task range. -/
theorem loop_sim (alloc need : List (List Nat)) (n : Nat) :
    ∀ (fuel : Nat) (finish : List Bool) (finished : Finset Nat) (work : List Nat),
    finish.length = n →
    (∀ t, t < n → boolAt finish t = decide (t ∈ finished)) →
    (∀ row ∈ need, row.length ≤ work.length) →
    (bankerLoop alloc need n fuel finish work).1.length = n ∧
    (bankerLoop alloc need n fuel finish work).2
      = (specLoop alloc need n fuel finished work).2 ∧
    (∀ t, t < n → boolAt (bankerLoop alloc need n fuel finish work).1 t
        = decide (t ∈ (specLoop alloc need n fuel finished work).1)) := by
  intro fuel
  induction fuel with
  | zero =>
      intro finish finished work hlen hR _
      exact ⟨hlen, rfl, hR⟩
  | succ fuel ih =>
      intro finish finished work hlen hR hW
      have hfind : findTask n need finish work = specFind n need finished work := by
        apply find?_congr_on
        intro t ht
        have htn : t < n := List.mem_range.mp ht
        have h1 : (!boolAt finish t) = decide (t ∉ finished) := by
          rw [hR t htn]
          simp
        have hrowlen : (rowAt need t).length ≤ work.length := by
          by_cases hm : t < need.length
          · have hg : need[t]? = some (need[t]) := List.getElem?_eq_getElem hm
            have hmem : need[t] ∈ need := List.getElem_mem hm
            have hrw : rowAt need t = need[t] := by simp [rowAt, hg]
            rw [hrw]
            exact hW _ hmem
          · push_neg at hm
            simp [rowAt, List.getElem?_eq_none hm]
        have h2 : rowLe (rowAt need t) work = rowLePure (rowAt need t) work :=
          rowLe_eq_pure _ _ hrowlen
        rw [h1, h2]
      cases hft : specFind n need finished work with
      | none =>
          have hb : bankerLoop alloc need n (fuel + 1) finish work
              = (finish, work) := by
            simp only [bankerLoop, hfind, hft]
          have hs : specLoop alloc need n (fuel + 1) finished work
              = (finished, work) := by
            simp only [specLoop, hft]
          rw [hb, hs]
          exact ⟨hlen, rfl, hR⟩
      | some t =>
          have htn : t < n := by
            have hft2 : (List.range n).find?
                (fun u => decide (u ∉ finished) && rowLePure (rowAt need u) work)
                = some t := hft
            exact List.mem_range.mp (List.mem_of_find?_eq_some hft2)
          have hlen2 : (finish.set t true).length = n := by simp [hlen]
          have hR2 : ∀ u, u < n → boolAt (finish.set t true) u
              = decide (u ∈ insert t finished) := by
            intro u hun
            by_cases hu : u = t
            · subst hu
              rw [boolAt_set_self finish u true (by omega)]
              simp
            · rw [boolAt_set_ne finish t u true (fun he => hu he.symm)]
              rw [hR u hun]
              rw [decide_eq_decide]
              simp [Finset.mem_insert, hu]
          have hW2 : ∀ row ∈ need, row.length
              ≤ (addWork work (rowAt alloc t)).length := by
            intro row hrow
            rw [addWork_length]
            exact hW row hrow
          have hrec := ih (finish.set t true) (insert t finished)
            (addWork work (rowAt alloc t)) hlen2 hR2 hW2
          have hb : bankerLoop alloc need n (fuel + 1) finish work
              = bankerLoop alloc need n fuel (finish.set t true)
                  (addWork work (rowAt alloc t)) := by
            simp only [bankerLoop, hfind, hft]
          have hs : specLoop alloc need n (fuel + 1) finished work
              = specLoop alloc need n fuel (insert t finished)
                  (addWork work (rowAt alloc t)) := by
            simp only [specLoop, hft]
          rw [hb, hs]
          exact hrec

/-- The code's final `finish.iter().any(|it| !*it)` verdict agrees with the
negation of the spec's "every task ends marked finished". -/
theorem any_unfinished_eq (n : Nat) (finish : List Bool) (finished : Finset Nat)
    (hlen : finish.length = n)
    (hR : ∀ t, t < n → boolAt finish t = decide (t ∈ finished)) :
    (finish.any (fun b => !b)) = !decide (∀ t, t < n → t ∈ finished) := by
  cases hd : decide (∀ t, t < n → t ∈ finished) with
  | true =>
      have hall := of_decide_eq_true hd
      simp only [Bool.not_true]
      rw [List.any_eq_false]
      intro b hb
      obtain ⟨i, hi⟩ := List.mem_iff_getElem?.mp hb
      have hilen : i < finish.length := by
        by_contra hc
        push_neg at hc
        rw [List.getElem?_eq_none hc] at hi
        cases hi
      have hin : i < n := by omega
      have hb2 : b = true := by
        have hbool : boolAt finish i = b := by simp [boolAt, hi]
        rw [hR i hin, decide_eq_true (hall i hin)] at hbool
        exact hbool.symm
      simp [hb2]
  | false =>
      have hnall := of_decide_eq_false hd
      push_neg at hnall
      obtain ⟨t, htn, htno⟩ := hnall
      simp only [Bool.not_false]
      rw [List.any_eq_true]
      have htlen : t < finish.length := by omega
      have hsome : finish[t]? = some (finish[t]) := List.getElem?_eq_getElem htlen
      have hfalse : finish[t] = false := by
        have hbool : boolAt finish t = decide (t ∈ finished) := hR t htn
        rw [decide_eq_false htno] at hbool
        simpa [boolAt, hsome] using hbool
      refine ⟨false, ?_, by simp⟩
      rw [← hfalse]
      exact List.getElem_mem htlen

/-- C2 (amended): on a well-formed snapshot (one finish entry per task slot
covers all recorded allocation rows, and every recorded need/allocation row
fits inside `available`, exactly the configurations on which the Rust loops
do not panic), the detector computes the Banker simulation of the spec
except for the initialization: `finish[t]` starts true exactly for the tasks
with a recorded all-zero allocation row, while a task without a recorded row
starts unfinished.  The detector reports unsafe iff that recorded-row
simulation leaves some task unfinished. -/
theorem detect_matches_bankers (n : Nat) (s : DDState)
    (hAllocRows : s.allocation.length ≤ n)
    (hNeedFit : ∀ row ∈ s.need, row.length ≤ s.available.length)
    (hAllocFit : ∀ row ∈ s.allocation, row.length ≤ s.available.length) :
    detectDeadlock true n s = !bankersSafe n s := by
  have hcap : 0 + s.allocation.length ≤ (List.replicate n false).length := by
    simpa using hAllocRows
  have hlen0 : (finishInit n s.allocation).length = n := by
    rw [finishInit, markZeroRows_length]
    simp
  have hR0 : ∀ t, t < n → boolAt (finishInit n s.allocation) t
      = decide (t ∈ zeroAllocTasks n s.allocation) := by
    intro t htn
    have hmem : (t ∈ zeroAllocTasks n s.allocation)
        ↔ (t < s.allocation.length ∧ ∀ x ∈ rowAt s.allocation t, x = 0) := by
      simp [zeroAllocTasks, Finset.mem_filter, Finset.mem_range, htn]
    have hz : isZeroRow (rowAt s.allocation t)
        = decide (∀ x ∈ rowAt s.allocation t, x = 0) := by
      apply Bool.eq_iff_iff.mpr
      simp [isZeroRow]
    rw [finishInit, markZeroRows_boolAt s.allocation _ 0 t hcap, boolAt_replicate]
    rw [decide_eq_decide.mpr hmem, Bool.decide_and, ← hz]
    simp [Nat.sub_zero, Nat.zero_le]
  obtain ⟨hlenf, hwork, hRf⟩ := loop_sim s.allocation s.need n n
    (finishInit n s.allocation) (zeroAllocTasks n s.allocation) s.available
    hlen0 hR0 hNeedFit
  show detectVerdict n s = !bankersSafe n s
  simp only [detectVerdict]
  rw [any_unfinished_eq n _
    ((specLoop s.allocation s.need n n (zeroAllocTasks n s.allocation)
      s.available).1) hlenf hRf]
  rfl

/-- C2 witness: a two-task, two-resource snapshot satisfying the
well-formedness hypotheses. -/
theorem detect_matches_bankers_witness :
    detectDeadlock true 2 ⟨[1, 0], [[0, 1], [1]], [[1], [0, 1]]⟩
      = !bankersSafe 2 ⟨[1, 0], [[0, 1], [1]], [[1], [0, 1]]⟩ :=
  detect_matches_bankers 2 ⟨[1, 0], [[0, 1], [1]], [[1], [0, 1]]⟩
    (by decide) (by decide) (by decide)

/-- C2 counterexample to the original claim: on the reachable snapshot with
one task, available = [0], no recorded allocation row and need = [[1]] (the
task's own in-flight request on a zero-count semaphore; it satisfies the
well-formedness hypotheses), the detector reports unsafe while the spec's
Banker simulation, whose initialization marks the holds-nothing task
finished, reports safe — so the detector does not compute the spec's
simulation as described. -/
theorem detector_diverges_from_spec_init :
    detectDeadlock true 1 ⟨[0], [], [[1]]⟩ = true ∧
    bankersSafeSpec 1 ⟨[0], [], [[1]]⟩ = true ∧
    detectDeadlock true 1 ⟨[0], [], [[1]]⟩
      ≠ !bankersSafeSpec 1 ⟨[0], [], [[1]]⟩ := by
  decide

/-! Faithfulness of the fuel choice: the Rust loop runs until `_find` fails;
with one fuel unit per task the model reaches that same fixpoint. -/

/-- Number of unfinished task slots. -/
def unfinishedCount (n : Nat) (finish : List Bool) : Nat :=
  ((Finset.range n).filter (fun t => boolAt finish t = false)).card

theorem unfinishedCount_set (n t : Nat) (finish : List Bool)
    (htn : t < n) (hlen : finish.length = n) (hf : boolAt finish t = false) :
    unfinishedCount n (finish.set t true) + 1 = unfinishedCount n finish := by
  have hset : (Finset.range n).filter
        (fun u => boolAt (finish.set t true) u = false)
      = ((Finset.range n).filter (fun u => boolAt finish u = false)).erase t := by
    ext u
    simp only [Finset.mem_filter, Finset.mem_erase, Finset.mem_range]
    constructor
    · rintro ⟨hu, hbu⟩
      by_cases hut : u = t
      · subst hut
        rw [boolAt_set_self finish u true (by omega)] at hbu
        cases hbu
      · rw [boolAt_set_ne finish t u true (fun he => hut he.symm)] at hbu
        exact ⟨hut, hu, hbu⟩
    · rintro ⟨hut, hu, hbu⟩
      refine ⟨hu, ?_⟩
      rw [boolAt_set_ne finish t u true (fun he => hut he.symm)]
      exact hbu
  have hmem : t ∈ (Finset.range n).filter (fun u => boolAt finish u = false) := by
    simp [Finset.mem_filter, Finset.mem_range, htn, hf]
  have hpos : 0 < ((Finset.range n).filter
      (fun u => boolAt finish u = false)).card :=
    Finset.card_pos.mpr ⟨t, hmem⟩
  rw [unfinishedCount, unfinishedCount, hset, Finset.card_erase_of_mem hmem]
  omega

/-- With fuel `n` (the kernel calls the loop with one fuel unit per task
slot) the loop's result is a fixpoint: no further task can be found, exactly
where the unbounded Rust `while let` stops. -/
theorem bankerLoop_reaches_fixpoint (alloc need : List (List Nat)) (n : Nat) :
    ∀ (fuel : Nat) (finish : List Bool) (work : List Nat),
    finish.length = n → unfinishedCount n finish ≤ fuel →
    findTask n need (bankerLoop alloc need n fuel finish work).1
      (bankerLoop alloc need n fuel finish work).2 = none := by
  intro fuel
  induction fuel with
  | zero =>
      intro finish work hlen hcount
      have hzero : ((Finset.range n).filter
          (fun t => boolAt finish t = false)).card = 0 := Nat.le_zero.mp hcount
      have hempty := Finset.card_eq_zero.mp hzero
      simp only [bankerLoop, findTask]
      rw [List.find?_eq_none]
      intro t ht
      have htn : t < n := List.mem_range.mp ht
      have htrue : boolAt finish t = true := by
        cases hb : boolAt finish t with
        | true => rfl
        | false =>
            have hmem : t ∈ (Finset.range n).filter
                (fun u => boolAt finish u = false) := by
              simp [Finset.mem_filter, Finset.mem_range, htn, hb]
            rw [hempty] at hmem
            exact absurd hmem (Finset.not_mem_empty t)
      simp [htrue]
  | succ fuel ih =>
      intro finish work hlen hcount
      cases hft : findTask n need finish work with
      | none =>
          have hb : bankerLoop alloc need n (fuel + 1) finish work
              = (finish, work) := by
            simp only [bankerLoop, hft]
          rw [hb]
          exact hft
      | some t =>
          have hft2 : (List.range n).find?
              (fun u => !(boolAt finish u) && rowLe (rowAt need u) work)
              = some t := hft
          have htn : t < n := List.mem_range.mp (List.mem_of_find?_eq_some hft2)
          have hp0 := List.find?_some hft2
          have hp : (!(boolAt finish t) && rowLe (rowAt need t) work) = true := hp0
          have hfalse : boolAt finish t = false := by
            cases hb : boolAt finish t with
            | false => rfl
            | true =>
                rw [hb] at hp
                simp at hp
          have hcount2 : unfinishedCount n (finish.set t true) ≤ fuel := by
            have := unfinishedCount_set n t finish htn hlen hfalse
            omega
          have hlen2 : (finish.set t true).length = n := by simp [hlen]
          have hb : bankerLoop alloc need n (fuel + 1) finish work
              = bankerLoop alloc need n fuel (finish.set t true)
                  (addWork work (rowAt alloc t)) := by
            simp only [bankerLoop, hft]
          rw [hb]
          exact ih (finish.set t true) (addWork work (rowAt alloc t)) hlen2 hcount2
